import Mathlib

/-!
Verification of the OU results scraper (`app.py`, `json_to_excel.py`).

The Python program is shallowly embedded: dictionaries become structures or
association lists, `None`/missing values become `Option`, raised-and-caught
exceptions become `Option`/sum-free branch results, and the NDJSON staging
file becomes a list of lines.  Pandas dataframes are modelled as a list of
column names plus rows of key/cell association lists, where a cell is
`Option String` (`none` models `NaN`/`None`, which openpyxl writes as an
empty cell).

The Python `json` standard library (an external collaborator, not repository
code) is modelled as exact: `json.dumps` of a record dictionary is a single
non-blank line that does not start with `[`, and `json.loads` inverts it.
Concretely a staging-file line is either blank, malformed, or carries one
JSON value.
-/

/-- `StudentRecord`: the `student` dictionary built by `fetch_result`
(app.py 172-178) or by the placeholder in `worker` (app.py 219).  A field is
`none` when the corresponding key is absent from the dictionary (the
placeholder has only `hallticket`). -/
structure StudentRecord where
  hallticket : String
  gender : Option String := none
  name : Option String := none
  father : Option String := none
  course : Option String := none
deriving Repr, DecidableEq

/-- `MarkEntry`: one element of the `marks` list (app.py 188-193). -/
structure MarkEntry where
  code : String
  subject : String
  credits : String
  grade : String
deriving Repr, DecidableEq

/-- `ResultRecord`: one staged record, `{"student": …, "marks": …,
"result": …}` with an optional `"status"` key (app.py 204 and 218-223). -/
structure ResultRecord where
  student : StudentRecord
  marks : List MarkEntry
  result : Option String := none
  status : Option String := none
deriving Repr, DecidableEq

/-- JSON values, as produced by `json.dumps`/`json.loads` on the record
dictionaries. -/
inductive Json where
  | null : Json
  | str : String → Json
  | arr : List Json → Json
  | obj : List (String × Json) → Json
deriving Repr

/-- An optional string field of a Python dict: present with a string value,
or absent. -/
def optStrField (k : String) (v : Option String) : List (String × Json) :=
  match v with
  | some s => [(k, Json.str s)]
  | none => []

/-- JSON encoding of the `student` dictionary, key order as built by
`fetch_result` (hallticket, gender, name, father, course); absent fields
produce no key, as in the `worker` placeholder. -/
def studentToJson (s : StudentRecord) : Json :=
  Json.obj ([("hallticket", Json.str s.hallticket)]
    ++ optStrField "gender" s.gender
    ++ optStrField "name" s.name
    ++ optStrField "father" s.father
    ++ optStrField "course" s.course)

/-- JSON encoding of one mark dictionary (app.py 188-193). -/
def markToJson (m : MarkEntry) : Json :=
  Json.obj [("code", Json.str m.code), ("subject", Json.str m.subject),
            ("credits", Json.str m.credits), ("grade", Json.str m.grade)]

/-- A nullable string value (`final_result` may be `None`). -/
def jsonOfOptStr (v : Option String) : Json :=
  match v with
  | some s => Json.str s
  | none => Json.null

/-- JSON encoding of a `ResultRecord` dictionary: keys `student`, `marks`,
`result`, and `status` when present — the dictionary shapes built at
app.py 204 and app.py 218-223. -/
def recordToJson (r : ResultRecord) : Json :=
  Json.obj ([("student", studentToJson r.student),
             ("marks", Json.arr (r.marks.map markToJson)),
             ("result", jsonOfOptStr r.result)]
    ++ optStrField "status" r.status)

/-! ## String primitives

Python string operations are modelled on the underlying character lists so
that all definitions evaluate by kernel reduction: `stripText` models
whitespace stripping (`get_text(strip=True)`, `str.strip()`), `strLe`
models Python's code-point lexicographic `<=` used by pandas string sorts,
`pyInt?` models `int(s)` on sign-plus-digits strings (the hallticket
shapes the program feeds it), `strStarts` models `str.startswith`,
`strContains` models the `in` substring test, and `pyIsUpper` models
`str.isupper` (some cased character and no lowercase one). -/

/-- Strip leading and trailing whitespace from a character list. -/
def stripChars (cs : List Char) : List Char :=
  ((cs.dropWhile Char.isWhitespace).reverse.dropWhile Char.isWhitespace).reverse

/-- Python `str.strip()` / BeautifulSoup `get_text(strip=True)`. -/
def stripText (s : String) : String := ⟨stripChars s.data⟩

/-- Python string `<=` (code-point lexicographic order on the character
lists). -/
def strLe (a b : String) : Bool := decide (a.data ≤ b.data)

/-- Does the second character list occur as a leading segment of the
first argument list? -/
def startsWithChars : List Char → List Char → Bool
  | [], _ => true
  | _ :: _, [] => false
  | p :: ps, c :: cs => p = c && startsWithChars ps cs

/-- Python `s.startswith(pat)`. -/
def strStarts (s pat : String) : Bool := startsWithChars pat.data s.data

/-- Does `pat` occur as a contiguous run inside the list? -/
def hasInfixChars (pat : List Char) : List Char → Bool
  | [] => pat.isEmpty
  | c :: cs => startsWithChars pat (c :: cs) || hasInfixChars pat cs

/-- Python `pat in s` substring test. -/
def strContains (s pat : String) : Bool := hasInfixChars pat.data s.data

/-- Accumulate a decimal value over digit characters; fail on any
non-digit. -/
def digitsAcc? : List Char → Nat → Option Nat
  | [], acc => some acc
  | c :: cs, acc =>
    if c.isDigit then digitsAcc? cs (10 * acc + (c.toNat - '0'.toNat)) else none

/-- Decimal value of a nonempty all-digit character list. -/
def digitsVal? : List Char → Option Nat
  | [] => none
  | c :: cs => digitsAcc? (c :: cs) 0

/-- Python `int(s)` on an optional sign followed by decimal digits;
`none` models the raised `ValueError`. -/
def pyInt? (s : String) : Option Int :=
  match s.data with
  | '-' :: rest => (digitsVal? rest).map (fun n => -(n : Int))
  | '+' :: rest => (digitsVal? rest).map (fun n => (n : Int))
  | cs => (digitsVal? cs).map (fun n => (n : Int))

/-- Python `str.isupper`: at least one cased character and no lowercase
character (ASCII casing suffices for this program's column names). -/
def pyIsUpper (s : String) : Bool :=
  s.data.any (fun ch => ch.isUpper || ch.isLower) && s.data.all (fun ch => !ch.isLower)

/-! ## HTML result parser (`fetch_result`, parsing phase, app.py 161-204)

The response body is abstracted into the features the parser reads: whether
the marker substring `"Personal Details"` occurs in the text, and for each
of the three tables (`AutoNumber3/4/5`) whether `soup.find` locates it and,
if so, its rows — each row being the list of its `td` cell raw texts.
`get_text(strip=True)` is modelled by `stripText` on the raw cell text. -/

/-- The parser-relevant shape of one HTTP response body. -/
structure Page where
  hasMarker : Bool
  table3 : Option (List (List String))
  table4 : Option (List (List String))
  table5 : Option (List (List String))
deriving Repr, DecidableEq

/-- `rows[i].find_all("td")[j].get_text(strip=True)` as a fallible access:
`none` models the `IndexError` raised when the row or cell is missing. -/
def getText (rows : List (List String)) (i j : Nat) : Option String :=
  (rows[i]?).bind fun r => (r[j]?).map stripText

/-- The fully-populated student record extracted from Table A by
`fetch_result` (app.py 172-178): all five cells must be present. -/
structure ParsedStudent where
  hallticket : String
  gender : String
  name : String
  father : String
  course : String
deriving Repr, DecidableEq

/-- Extraction of the Table A cells (app.py 172-178).  The Python code runs
inside `try/except`; any failing access makes the whole extraction `none`. -/
def extract_student (rows : List (List String)) : Option ParsedStudent := do
  let hallticket ← getText rows 1 1
  let gender ← getText rows 1 3
  let name ← getText rows 2 1
  let father ← getText rows 2 3
  let course ← getText rows 3 1
  pure { hallticket, gender, name, father, course }

/-- Table B extraction (app.py 182-193): rows of `AutoNumber4` from the
third row on; a row with at least 4 cells yields one mark entry, shorter
rows are skipped. -/
def marksOfTable (rows4 : List (List String)) : List MarkEntry :=
  (rows4.drop 2).filterMap fun cols =>
    if cols.length ≥ 4 then
      some { code := stripText (cols.getD 0 ""), subject := stripText (cols.getD 1 ""),
             credits := stripText (cols.getD 2 ""), grade := stripText (cols.getD 3 "") }
    else none

/-- The mark entry a single sufficiently long Table B row contributes. -/
def markEntryOfRow (cols : List String) : MarkEntry :=
  { code := stripText (cols.getD 0 ""), subject := stripText (cols.getD 1 ""),
    credits := stripText (cols.getD 2 ""), grade := stripText (cols.getD 3 "") }

/-- Table C extraction (app.py 195-202): the third row's third cell when
both exist, otherwise the final result stays `None`. -/
def resultOfTable (rows5 : List (List String)) : Option String :=
  if rows5.length > 2 then
    let cols := rows5.getD 2 []
    if cols.length > 2 then some (stripText (cols.getD 2 "")) else none
  else none

/-- The dictionary returned by a successful `fetch_result`
(app.py 204). -/
structure ParsedResult where
  student : ParsedStudent
  marks : List MarkEntry
  result : Option String
deriving Repr, DecidableEq

/-- The parsing phase of `fetch_result` (app.py 161-204): absent when the
marker is missing, `AutoNumber3` is not found, or Table A extraction fails;
otherwise the full record with marks and optional final result. -/
def fetch_result_parse (p : Page) : Option ParsedResult :=
  if !p.hasMarker then none
  else
    match p.table3 with
    | none => none
    | some rows =>
      match extract_student rows with
      | none => none
      | some student =>
        let marks :=
          match p.table4 with
          | none => []
          | some rows4 => marksOfTable rows4
        let result :=
          match p.table5 with
          | none => none
          | some rows5 => resultOfTable rows5
        some { student, marks, result }

/-! ## Fetch worker (`worker`, app.py 207-228) and the durable append log

`worker` calls `fetch_result` inside `try/except`. The outcome is: a parsed
record, `None` (absent), or a raised exception (network failure or any
other error).  The records a worker run appends to the log are returned as
a list; the `except` branch only prints, so it appends nothing and the
exception never propagates (the embedding is a total function). -/

/-- Outcome of the `fetch_result(htno)` call inside `worker`. -/
inductive FetchOutcome where
  | parsed (p : ParsedResult)
  | absent
  | raised
deriving Repr

/-- The `ResultRecord` built from a successful parse: all student fields
present, no `status` key (app.py 204, stored at app.py 213-214). -/
def toResultRecord (p : ParsedResult) : ResultRecord :=
  { student := { hallticket := p.student.hallticket, gender := some p.student.gender,
                 name := some p.student.name, father := some p.student.father,
                 course := some p.student.course },
    marks := p.marks, result := p.result, status := none }

/-- The placeholder record for an absent page (app.py 218-223). -/
def placeholder (htno : String) : ResultRecord :=
  { student := { hallticket := htno }, marks := [], result := none,
    status := some "NO_RESULT" }

/-- The records one `worker(htno)` run appends to the durable log,
by outcome (app.py 207-228). -/
def worker (htno : String) (outcome : FetchOutcome) : List ResultRecord :=
  match outcome with
  | .parsed p => [toResultRecord p]
  | .absent => [placeholder htno]
  | .raised => []

/-- One line of the NDJSON staging file: blank, malformed, or carrying one
JSON value. -/
inductive RawLine where
  | blank : RawLine
  | malformed : RawLine
  | jsonLine (j : Json) : RawLine
deriving Repr

/-- `json.loads` on a stripped non-blank line: the value for a well-formed
line, `None`-like failure otherwise. -/
def lineValue : RawLine → Option Json
  | .jsonLine j => some j
  | _ => none

/-- `clear_old_results` (app.py 58-61): the staging file truncated to
empty. -/
def clear_old_results : List RawLine := []

/-- `append_result` (app.py 64-77): one `json.dumps(data)` line appended to
the staging file (flush/fsync affect durability only, not content). -/
def append_result (log : List RawLine) (data : ResultRecord) : List RawLine :=
  log ++ [RawLine.jsonLine (recordToJson data)]

/-- A worker run's effect on the staging log: each record it produces is
appended via `append_result` (app.py 214 and 225). -/
def runWorker (log : List RawLine) (htno : String) (outcome : FetchOutcome) :
    List RawLine :=
  (worker htno outcome).foldl append_result log

/-- The input file of `load_items` (json_to_excel.py 21-37), as dispatched
on its stripped text: a JSON array when the text starts with `[`, otherwise
(including the empty file) a sequence of NDJSON lines. -/
inductive StagingFile where
  | arrayFile (items : List Json)
  | ndjsonFile (lines : List RawLine)

/-- `load_items` (json_to_excel.py 21-37): a JSON-array file yields its
elements; an NDJSON file yields the values of its well-formed lines in
order, silently skipping blank and malformed lines. -/
def load_items : StagingFile → List Json
  | .arrayFile items => items
  | .ndjsonFile lines => lines.filterMap lineValue

/-- The final NDJSON read loop in `main` (app.py 327-335): strip each line,
skip blanks, `json.loads` under `try/except`, skip failures. -/
def mainFinalRead (lines : List RawLine) : List Json :=
  lines.filterMap lineValue

/-- Spec-side description of a loader output: the JSON values of exactly
the well-formed lines, in file order. -/
def wellFormedLineValues (lines : List RawLine) : List Json :=
  lines.flatMap fun l =>
    match l with
    | .jsonLine j => [j]
    | _ => []

/-- Field access `item["student"]["hallticket"]`-style on a loaded JSON
item, as the report builder performs via `item.get("student").get("hallticket")`. -/
def objLookup (j : Json) (k : String) : Option Json :=
  match j with
  | .obj fields => fields.lookup k
  | _ => none

/-- The hallticket string of a loaded item, when present. -/
def itemHallticket (j : Json) : Option String :=
  match (objLookup j "student").bind fun s => objLookup s "hallticket" with
  | some (Json.str h) => some h
  | _ => none

/-! ## Dataframe model for the report builder

A pandas `DataFrame` built from a list of dictionaries is modelled as the
list of its column names (union of the row keys in first-appearance order)
plus the rows themselves, each row an association list from column name to
cell.  A cell is `Option String`: `none` models `NaN`/missing, which both
writers emit as an empty spreadsheet cell. -/

/-- A spreadsheet/dataframe cell. -/
abbrev Cell := Option String

/-- One dataframe row: keys with their cells, in dictionary insertion
order. -/
abbrev Row := List (String × Cell)

/-- The cell of a row at a column: `none` both for a missing key and for a
present null value (pandas renders both as `NaN`). -/
def getCell (r : Row) (c : String) : Cell := (r.lookup c).join

/-- Fold a row's keys into a first-appearance-ordered column list. -/
def addRowCols (acc : List String) (r : Row) : List String :=
  r.foldl (fun a kv => if a.contains kv.1 then a else a ++ [kv.1]) acc

/-- `pd.DataFrame(list_of_dicts)` column order: union of the rows' keys in
first-appearance order. -/
def colsOf (rows : List Row) : List String := rows.foldl addRowCols []

/-- A dataframe: column names plus rows. -/
structure DF where
  cols : List String
  rows : List Row
deriving Repr, DecidableEq

/-- An optional dictionary entry: a key/cell pair when the source dict has
the key, nothing otherwise. -/
def optCell (k : String) (v : Option String) : Row :=
  match v with
  | some s => [(k, some s)]
  | none => []

/-- `flatten_top(item)` (app.py 338-348, json_to_excel.py 46-57): nested
`student` keys become dotted columns in dict order, the list-valued
`marks` key is skipped, `result` keeps its possibly-null value, `status`
appears only when the record has it. -/
def flatten_top (r : ResultRecord) : Row :=
  [("student.hallticket", some r.student.hallticket)]
  ++ optCell "student.gender" r.student.gender
  ++ optCell "student.name" r.student.name
  ++ optCell "student.father" r.student.father
  ++ optCell "student.course" r.student.course
  ++ [("result", r.result)]
  ++ optCell "status" r.status

/-- One flattened results row: `flatten_top` plus the explicitly added
top-level `hallticket` key (app.py 355, json_to_excel.py 65). -/
def resultsRowOf (r : ResultRecord) : Row :=
  flatten_top r ++ [("hallticket", some r.student.hallticket)]

/-- One long-form marks row after the reindex to the five standard columns
and `fillna("")` (app.py 360-363 and 369-374, json_to_excel.py 71-74 and
80-84): every mark dictionary has exactly these keys, all strings. -/
structure MarkRow where
  hallticket : String
  code : String
  subject : String
  credits : String
  grade : String
deriving Repr, DecidableEq

/-- All long-form marks rows, one per `(record, mark)` in record order then
table row order (app.py 359-363, json_to_excel.py 70-74). -/
def markRowsOf (items : List ResultRecord) : List MarkRow :=
  items.flatMap fun r =>
    r.marks.map fun m =>
      { hallticket := r.student.hallticket, code := m.code,
        subject := m.subject, credits := m.credits, grade := m.grade }

/-- First-appearance deduplication of a string list. -/
def uniqueInOrder (xs : List String) : List String :=
  xs.foldl (fun acc x => if acc.contains x then acc else acc ++ [x]) []

/-- Ascending code-point sort of column or key names, as pandas sorts a
pivot's index/columns and Python's `sorted` sorts leftover columns. -/
def sortAsc (xs : List String) : List String :=
  List.insertionSort (fun a b => strLe a b = true) xs

/-- The sorted unique halltickets indexing a marks pivot
(`pivot_table(index="hallticket", …)`). -/
def pivotIndex (ms : List MarkRow) : List String :=
  sortAsc (uniqueInOrder (ms.map (·.hallticket)))

/-- The sorted unique subject codes of a marks pivot
(`pivot_table(…, columns="code", …)`). -/
def pivotCodes (ms : List MarkRow) : List String :=
  sortAsc (uniqueInOrder (ms.map (·.code)))

/-- A pivot cell: `aggfunc="first"` takes the first marks row of the
`(hallticket, code)` group in data order; no row gives `NaN`. -/
def pivotCell (ms : List MarkRow) (f : MarkRow → String) (h c : String) : Cell :=
  (ms.find? fun m => m.hallticket == h && m.code == c).map f

/-- `pivot_table(index="hallticket", columns="code", values=…,
aggfunc="first").reset_index()` with columns renamed by `rn` (identity for
the bare-code grade pivot of json_to_excel.py 89, name-prefixing
otherwise). -/
def pivotReset (ms : List MarkRow) (f : MarkRow → String) (rn : String → String) : DF :=
  { cols := "hallticket" :: (pivotCodes ms).map rn,
    rows := (pivotIndex ms).map fun h =>
      ("hallticket", some h) :: (pivotCodes ms).map fun c => (rn c, pivotCell ms f h c) }

/-- The non-key columns a merge appends. -/
def nonKeyCols (df : DF) : List String :=
  df.cols.filter (fun c => c ≠ "hallticket")

/-- One left row of `left.merge(right, on="hallticket", how="left")` where
the right side has a unique `hallticket` column (a reset pivot): the left
row extended by the matching right row's non-key cells, or by `NaN`s when
no right row matches. -/
def mergeRow (right : DF) (lr : Row) : Row :=
  match right.rows.find? (fun rr => getCell rr "hallticket" == getCell lr "hallticket") with
  | some rr => lr ++ (nonKeyCols right).map fun c => (c, getCell rr c)
  | none => lr ++ (nonKeyCols right).map fun c => (c, (none : Cell))

/-- `left.merge(right, on="hallticket", how="left")` row-wise: every left
row appears exactly once, in order. -/
def mergeLeft (leftRows : List Row) (right : DF) : List Row :=
  leftRows.map (mergeRow right)

/-- Is this a pivot column name (`grade_`/`credits_`/`subject_`)?
(app.py 403) -/
def isPivotCol (c : String) : Bool :=
  strStarts c "grade_" || strStarts c "credits_" || strStarts c "subject_"

/-- `value_counts()` index: the unique values sorted by descending count,
stably from first-appearance order. -/
def valueCounts (xs : List String) : List String :=
  List.insertionSort (fun a b => xs.count b ≤ xs.count a) (uniqueInOrder xs)

/-- Sort key of `df['hallticket'].astype(int)` on one row. -/
def intKeyOfRow (r : Row) : Int := ((getCell r "hallticket").bind pyInt?).getD 0

/-- Fallback string sort key of `sort_values('hallticket')`. -/
def strKeyOfRow (r : Row) : String := (getCell r "hallticket").getD ""

/-- Does `astype(int)` succeed on the whole `hallticket` column? -/
def allIntKeys (rows : List Row) : Bool :=
  rows.all fun r => ((getCell r "hallticket").bind pyInt?).isSome

/-- The hallticket row sort (app.py 410-415, json_to_excel.py 135-140):
numeric ascending when every hallticket converts to `int`, code-point
lexicographic ascending otherwise. -/
def sortRows (rows : List Row) : List Row :=
  if allIntKeys rows then
    List.insertionSort (fun a b => intKeyOfRow a ≤ intKeyOfRow b) rows
  else
    List.insertionSort (fun a b => strLe (strKeyOfRow a) (strKeyOfRow b) = true) rows

namespace App

/-- `f"grade_{c}"` column renaming (app.py 383). -/
def gradeCol (c : String) : String := "grade_" ++ c

/-- `f"credits_{c}"` column renaming (app.py 384). -/
def creditsCol (c : String) : String := "credits_" ++ c

/-- `f"subject_{c}"` column renaming (app.py 385). -/
def subjectCol (c : String) : String := "subject_" ++ c

/-- `df_results` after the three pivot merges (app.py 365-390): flattened
rows merged left with the renamed grade, credits and subject pivots in that
order. -/
def mergedDF (items : List ResultRecord) : DF :=
  let flatRows := items.map resultsRowOf
  let ms := markRowsOf items
  let dfG := pivotReset ms (·.grade) gradeCol
  let dfC := pivotReset ms (·.credits) creditsCol
  let dfS := pivotReset ms (·.subject) subjectCol
  { cols := colsOf flatRows ++ nonKeyCols dfG ++ nonKeyCols dfC ++ nonKeyCols dfS,
    rows := mergeLeft (mergeLeft (mergeLeft flatRows dfG) dfC) dfS }

/-- The fixed core column preference (app.py 393). -/
def core_pref : List String :=
  ["hallticket", "student.name", "student.father", "student.gender",
   "student.course", "result", "status"]

/-- `code_counts.index` (app.py 395-396): the unique codes in descending
frequency order. -/
def codesSorted (items : List ResultRecord) : List String :=
  valueCounts ((markRowsOf items).map (·.code))

/-- `core_cols` (app.py 394): the core columns present in the merged
frame. -/
def coreCols (items : List ResultRecord) : List String :=
  core_pref.filter (fun c => (mergedDF items).cols.contains c)

/-- `subject_cols` before the leftover extension (app.py 398-402): per code
in frequency order, the present grade/credits/subject columns grouped. -/
def subjGrouped (items : List ResultRecord) : List String :=
  (codesSorted items).flatMap fun code =>
    [gradeCol code, creditsCol code, subjectCol code].filter
      (fun c => (mergedDF items).cols.contains c)

/-- `remaining` (app.py 403): pivot columns not yet placed. -/
def remainingPivots (items : List ResultRecord) : List String :=
  (mergedDF items).cols.filter fun c =>
    isPivotCol c && !(subjGrouped items).contains c

/-- `subject_cols` (app.py 398-404). -/
def subjectCols (items : List ResultRecord) : List String :=
  subjGrouped items ++ sortAsc (remainingPivots items)

/-- `other_cols` (app.py 406): everything not already placed. -/
def otherCols (items : List ResultRecord) : List String :=
  (mergedDF items).cols.filter fun c =>
    !(coreCols items ++ subjectCols items).contains c

/-- The final `results` column ordering (app.py 392-407): present core
columns first, then per code in descending-frequency order the present
grade/credits/subject columns grouped, then leftover pivot columns sorted,
then all remaining columns. -/
def finalCols (items : List ResultRecord) : List String :=
  coreCols items ++ subjectCols items ++ otherCols items

/-- `df.reindex(columns=cols)` on one row: exactly the listed columns, each
with the row's cell there (`NaN` when absent). -/
def reindexRow (cols : List String) (r : Row) : Row :=
  cols.map fun c => (c, getCell r c)

/-- The `results` sheet of the final conversion in `main`
(app.py 365-419): when no marks exist the flattened dataframe is written
as-is; otherwise the merged dataframe is reindexed to the computed column
order and row-sorted by hallticket. -/
def results_sheet (items : List ResultRecord) : DF :=
  let flatRows := items.map resultsRowOf
  let ms := markRowsOf items
  if ms.isEmpty then { cols := colsOf flatRows, rows := flatRows }
  else
    { cols := finalCols items,
      rows := sortRows ((mergedDF items).rows.map (reindexRow (finalCols items))) }

/-- The `grades` sheet (app.py 420-425): the renamed grade pivot, or an
empty one-column frame when no marks exist. -/
def grades_sheet (items : List ResultRecord) : DF :=
  let ms := markRowsOf items
  if ms.isEmpty then { cols := ["hallticket"], rows := [] }
  else pivotReset ms (·.grade) gradeCol

/-- The `marks` sheet (app.py 369-374 and 426): long-form rows reindexed to
the five standard columns. -/
def marks_sheet (items : List ResultRecord) : DF :=
  { cols := ["hallticket", "code", "subject", "credits", "grade"],
    rows := (markRowsOf items).map fun m =>
      [("hallticket", some m.hallticket), ("code", some m.code),
       ("subject", some m.subject), ("credits", some m.credits),
       ("grade", some m.grade)] }

/-- The `raw` sheet (app.py 367 and 427): one serialized record per row. -/
def raw_sheet (items : List ResultRecord) : List Json :=
  items.map recordToJson

/-- The sheet names written by the `main` conversion, in writer order
(app.py 418-427). -/
def sheet_names : List String := ["results", "grades", "marks", "raw"]

end App

namespace JsonToExcel

/-- `df_rows` after the three pivot merges (json_to_excel.py 59-96): like
the app merge, except the grade pivot keeps its bare code column names and
only the credits/subject pivots are renamed. -/
def mergedDF (items : List ResultRecord) : DF :=
  let flatRows := items.map resultsRowOf
  let ms := markRowsOf items
  let dfG := pivotReset ms (·.grade) (fun c => c)
  let dfC := pivotReset ms (·.credits) (fun c => "credits_" ++ c)
  let dfS := pivotReset ms (·.subject) (fun c => "subject_" ++ c)
  { cols := colsOf flatRows ++ nonKeyCols dfG ++ nonKeyCols dfC ++ nonKeyCols dfS,
    rows := mergeLeft (mergeLeft (mergeLeft flatRows dfG) dfC) dfS }

/-- The reduced core column preference of the standalone converter
(json_to_excel.py 99). -/
def core_pref : List String := ["hallticket", "student.name", "student.father"]

/-- `codes_sorted` (json_to_excel.py 103-104). -/
def codesSorted (items : List ResultRecord) : List String :=
  valueCounts ((markRowsOf items).map (·.code))

/-- `core_cols` (json_to_excel.py 100). -/
def coreCols (items : List ResultRecord) : List String :=
  core_pref.filter (fun c => (mergedDF items).cols.contains c)

/-- `labs` (json_to_excel.py 107). -/
def labCodes (items : List ResultRecord) : List String :=
  (codesSorted items).filter (fun c => strContains c "LAB")

/-- `non_labs` (json_to_excel.py 108). -/
def nonLabCodes (items : List ResultRecord) : List String :=
  (codesSorted items).filter (fun c => !(labCodes items).contains c)

/-- `subject_codes_ordered` (json_to_excel.py 110-116): common half, labs,
then uncommon half, kept only when present as columns. -/
def subjectCodesOrdered (items : List ResultRecord) : List String :=
  ((nonLabCodes items).take ((nonLabCodes items).length / 2)
      ++ labCodes items
      ++ (nonLabCodes items).drop ((nonLabCodes items).length / 2)).filter
    (fun c => (mergedDF items).cols.contains c)

/-- `final_cols` before the leftover extension (json_to_excel.py 119-121). -/
def withResultCols (items : List ResultRecord) : List String :=
  if (mergedDF items).cols.contains "result" then
    coreCols items ++ subjectCodesOrdered items ++ ["result"]
  else coreCols items ++ subjectCodesOrdered items

/-- `remaining_code_cols` (json_to_excel.py 124-125). -/
def remainingCodeCols (items : List ResultRecord) : List String :=
  sortAsc ((mergedDF items).cols.filter fun c =>
    !(withResultCols items).contains c && pyIsUpper c
      && !(strStarts c "credits_" || strStarts c "subject_"))

/-- The standalone converter's final `results` column ordering
(json_to_excel.py 98-126): present core columns, then the bare code
columns arranged common-half/labs/uncommon-half, then `result` when
present, then sorted leftover all-caps code columns. -/
def finalCols (items : List ResultRecord) : List String :=
  withResultCols items ++ remainingCodeCols items

/-- Add-missing-columns, `reindex(columns=final_cols)` and `fillna("")`
fused on one row (json_to_excel.py 129-133): a listed column keeps its
cell with `NaN` replaced by `""`; a column the frame lacked is filled with
`""`. -/
def reindexFillRow (mcols fc : List String) (r : Row) : Row :=
  fc.map fun c => (c, some ((if mcols.contains c then getCell r c else some "").getD ""))

/-- The `results` sheet of `items_to_excel` (json_to_excel.py 59-140):
merged, reindexed/filled to the computed column order, then row-sorted by
hallticket.  Both call sites guarantee a nonempty `items` list
(app.py 104-106, json_to_excel.py 203-205); on an empty list the Python
code would raise a `KeyError` in the sort step. -/
def results_sheet (items : List ResultRecord) : DF :=
  let m := mergedDF items
  let fc := finalCols items
  { cols := fc, rows := sortRows (m.rows.map (reindexFillRow m.cols fc)) }

/-- The `grades` sheet (json_to_excel.py 148-153): the bare-code grade
pivot, or an empty one-column frame when no marks exist. -/
def grades_sheet (items : List ResultRecord) : DF :=
  let ms := markRowsOf items
  if ms.isEmpty then { cols := ["hallticket"], rows := [] }
  else pivotReset ms (·.grade) (fun c => c)

/-- The `marks` sheet (json_to_excel.py 80-84 and 154): long-form rows
reindexed to the five standard columns. -/
def marks_sheet (items : List ResultRecord) : DF :=
  { cols := ["hallticket", "code", "subject", "credits", "grade"],
    rows := (markRowsOf items).map fun m =>
      [("hallticket", some m.hallticket), ("code", some m.code),
       ("subject", some m.subject), ("credits", some m.credits),
       ("grade", some m.grade)] }

/-- The `raw` sheet (json_to_excel.py 143 and 155): one serialized record
per row. -/
def raw_sheet (items : List ResultRecord) : List Json :=
  items.map recordToJson

/-- The sheet names written by `items_to_excel`, in writer order
(json_to_excel.py 146-155). -/
def sheet_names : List String := ["results", "grades", "marks", "raw"]

end JsonToExcel


/-! ## Concrete staged inputs used to instantiate the theorems -/

/-- A representative fully-populated fetched record with one mark, used to
compare the two conversion paths on the same staged content. -/
def c2record : ResultRecord :=
  { student := { hallticket := "110624861001", gender := some "M",
                 name := some "A STUDENT", father := some "A FATHER",
                 course := some "BSC" },
    marks := [{ code := "MATH101", subject := "MATHEMATICS", credits := "4",
                grade := "A" }],
    result := some "PASS", status := none }

/-- Two placeholder records staged in descending hallticket order. -/
def c5demo : List ResultRecord :=
  [placeholder "110624861002", placeholder "110624861001"]

/-- A fetched record shape parameterized by hallticket, name and marks. -/
def mkFetched (ht nm : String) (marks : List MarkEntry) : ResultRecord :=
  { student := { hallticket := ht, gender := some "M", name := some nm,
                 father := some ("F " ++ nm), course := some "BSC" },
    marks := marks, result := some "PASS", status := none }

/-- A MATH101 mark. -/
def mMATH : MarkEntry :=
  { code := "MATH101", subject := "MATHEMATICS", credits := "4", grade := "A" }

/-- A PHYS201 mark. -/
def mPHYS : MarkEntry :=
  { code := "PHYS201", subject := "PHYSICS", credits := "3", grade := "B" }

/-- Five staged records giving MATH101 five mark occurrences and PHYS201
two. -/
def c4demo : List ResultRecord :=
  [ mkFetched "110624861003" "C" [mMATH, mPHYS],
    mkFetched "110624861001" "A" [mMATH],
    mkFetched "110624861005" "E" [mMATH, mPHYS],
    mkFetched "110624861002" "B" [mMATH],
    mkFetched "110624861004" "D" [mMATH] ]

/-- One marked record plus one zero-marks placeholder. -/
def c8demo : List ResultRecord :=
  [ mkFetched "110624861002" "B" [mMATH], placeholder "110624861001" ]

/-! ## Helper lemmas -/

/-- Unfolding the Table A extraction: success pins every cell access. -/
lemma extract_student_spec {rows : List (List String)} {s : ParsedStudent}
    (h : extract_student rows = some s) :
    getText rows 1 1 = some s.hallticket ∧ getText rows 1 3 = some s.gender ∧
    getText rows 2 1 = some s.name ∧ getText rows 2 3 = some s.father ∧
    getText rows 3 1 = some s.course := by
  unfold extract_student at h
  simp only [bind, Option.bind_eq_some, pure, Option.some.injEq] at h
  obtain ⟨a, ha, b, hb, c, hc, d, hd, e, he, hs⟩ := h
  subst hs
  exact ⟨ha, hb, hc, hd, he⟩

/-- `filterMap` of a guarded constructor is filter-then-map. -/
lemma filterMap_guard {α β : Type} (g : α → β) (p : α → Prop) [DecidablePred p]
    (l : List α) :
    l.filterMap (fun x => if p x then some (g x) else none)
      = (l.filter (fun x => decide (p x))).map g := by
  induction l with
  | nil => rfl
  | cons x xs ih =>
    by_cases hx : p x
    · simp [List.filterMap_cons, List.filter_cons, hx, ih]
    · simp [List.filterMap_cons, List.filter_cons, hx, ih]

/-- A successful parse pins the marker, the personal-details table and the
Table A extraction. -/
lemma fetch_result_parse_some {p : Page} {res : ParsedResult}
    (h : fetch_result_parse p = some res) :
    p.hasMarker = true
      ∧ ∃ rows, p.table3 = some rows ∧ extract_student rows = some res.student := by
  unfold fetch_result_parse at h
  split at h
  · exact absurd h (by simp)
  · rename_i hmark
    split at h
    · exact absurd h (by simp)
    · rename_i rows h3
      split at h
      · exact absurd h (by simp)
      · rename_i s hex
        simp only [Option.some.injEq] at h
        subst h
        exact ⟨by simpa using hmark, rows, h3, hex⟩

/-- Folding `append_result` over records appends one well-formed line per
record, in order. -/
lemma foldl_append_result (rs : List ResultRecord) (log : List RawLine) :
    rs.foldl append_result log
      = log ++ rs.map (fun r => RawLine.jsonLine (recordToJson r)) := by
  induction rs generalizing log with
  | nil => simp
  | cons r rs ih => simp [List.foldl_cons, ih, append_result]

/-- Reading back a serialized record recovers its hallticket. -/
lemma itemHallticket_recordToJson (r : ResultRecord) :
    itemHallticket (recordToJson r) = some r.student.hallticket := rfl

/-! ## Claims -/

/-- C1: for every hall ticket, a successful fetch-and-parse appends exactly
one record with no status flag to the durable log; an absent page appends
exactly the placeholder (hallticket-only student, empty marks, unset
result, status `NO_RESULT`); a raised exception appends nothing and the
worker, a total function here, never propagates it. -/
theorem worker_outcome_classification (log : List RawLine) (htno : String) :
    (∀ p : ParsedResult,
      runWorker log htno (.parsed p)
          = log ++ [RawLine.jsonLine (recordToJson (toResultRecord p))]
        ∧ (toResultRecord p).status = none)
    ∧ (runWorker log htno .absent
          = log ++ [RawLine.jsonLine (recordToJson (placeholder htno))]
        ∧ placeholder htno
          = { student := { hallticket := htno, gender := none, name := none,
                           father := none, course := none },
              marks := [], result := none, status := some "NO_RESULT" })
    ∧ runWorker log htno .raised = log := by
  refine ⟨fun p => ⟨rfl, rfl⟩, ⟨rfl, rfl⟩, rfl⟩

/-- C3: the parsing phase of `fetch_result` fails closed.  It returns the
absent classification (`none`) when the marker substring is missing, when
the personal-details table is absent, or when any Table A cell access
fails; and any record it does return is fully filled, every student field
coming from a successful cell access. -/
theorem parser_fails_closed (p : Page) :
    (p.hasMarker = false → fetch_result_parse p = none)
    ∧ (p.table3 = none → fetch_result_parse p = none)
    ∧ (∀ rows, p.table3 = some rows → extract_student rows = none →
        fetch_result_parse p = none)
    ∧ (∀ res, fetch_result_parse p = some res →
        p.hasMarker = true ∧ ∃ rows, p.table3 = some rows ∧
          getText rows 1 1 = some res.student.hallticket ∧
          getText rows 1 3 = some res.student.gender ∧
          getText rows 2 1 = some res.student.name ∧
          getText rows 2 3 = some res.student.father ∧
          getText rows 3 1 = some res.student.course) := by
  refine ⟨?_, ?_, ?_, ?_⟩
  · intro h
    simp [fetch_result_parse, h]
  · intro h
    unfold fetch_result_parse
    cases hm : p.hasMarker <;> simp [h]
  · intro rows h3 hex
    unfold fetch_result_parse
    cases hm : p.hasMarker <;> simp [h3, hex]
  · intro res h
    obtain ⟨hm, rows, h3, hex⟩ := fetch_result_parse_some h
    obtain ⟨h11, h13, h21, h23, h31⟩ := extract_student_spec hex
    exact ⟨hm, rows, h3, h11, h13, h21, h23, h31⟩

/-- C3 witness: the theorem applied to a page lacking the marker. -/
theorem parser_fails_closed_witness :
    fetch_result_parse { hasMarker := false, table3 := none, table4 := none,
                         table5 := none } = none :=
  (parser_fails_closed _).1 rfl

/-- C7: the marks sequence is the Table B rows from the third onward, in
row order, where each row with at least four cells contributes exactly the
entry of its first four stripped cells and shorter rows contribute
nothing (and nothing raises). -/
theorem marks_from_table_rows (rows4 : List (List String)) :
    marksOfTable rows4
      = ((rows4.drop 2).filter (fun cols => cols.length ≥ 4)).map markEntryOfRow := by
  unfold marksOfTable markEntryOfRow
  exact filterMap_guard _ _ _

/-- C6: appending any record sequence to a freshly truncated staging log
via `append_result` and loading it back with `load_items` yields items
whose hallticket identifiers are exactly — and so as a set equal to — the
appended halltickets. -/
theorem append_log_roundtrip (rs : List ResultRecord) :
    (load_items (.ndjsonFile (rs.foldl append_result clear_old_results))).filterMap
        itemHallticket
      = rs.map (fun r => r.student.hallticket)
    ∧ ((load_items (.ndjsonFile (rs.foldl append_result clear_old_results))).filterMap
        itemHallticket).toFinset
      = (rs.map (fun r => r.student.hallticket)).toFinset := by
  have key : ∀ l : List ResultRecord,
      ((l.map (fun r => RawLine.jsonLine (recordToJson r))).filterMap
          lineValue).filterMap itemHallticket
        = l.map (fun r => r.student.hallticket) := by
    intro l
    induction l with
    | nil => rfl
    | cons r l ih =>
      simp only [List.map_cons, List.filterMap_cons, lineValue,
        itemHallticket_recordToJson]
      rw [ih]
  have h : (load_items (.ndjsonFile (rs.foldl append_result clear_old_results))).filterMap
      itemHallticket = rs.map (fun r => r.student.hallticket) := by
    rw [foldl_append_result]
    simpa [clear_old_results, load_items] using key rs
  exact ⟨h, by rw [h]⟩

/-- C10: both staging-log readers — the final conversion loop in `main`
and the NDJSON branch of `load_items` — return exactly the values of the
well-formed JSON lines in file order, silently skipping blank and
malformed lines; both are total functions, so a malformed line never
raises or aborts. -/
theorem loaders_skip_malformed (lines : List RawLine) :
    mainFinalRead lines = wellFormedLineValues lines
    ∧ load_items (.ndjsonFile lines) = wellFormedLineValues lines := by
  have h : lines.filterMap lineValue = wellFormedLineValues lines := by
    induction lines with
    | nil => rfl
    | cons l ls ih =>
      cases l <;> simp [List.filterMap_cons, wellFormedLineValues, lineValue, List.flatMap] at ih ⊢ <;>
        simpa [wellFormedLineValues, List.flatMap] using ih
  exact ⟨h, h⟩

/-- C2 counterexample: on the same staged record the standalone converter
and the main run's final conversion produce different `results`-sheet
columns (the standalone keeps only three core columns and bare code
columns) and different `grades`-sheet columns (bare `MATH101` versus
`grade_MATH101`), so the workbooks are not the same. -/
theorem conversion_sheets_differ :
    (App.results_sheet [c2record]).cols ≠ (JsonToExcel.results_sheet [c2record]).cols
    ∧ (App.grades_sheet [c2record]).cols ≠ (JsonToExcel.grades_sheet [c2record]).cols :=
  ⟨by decide, by decide⟩

/-- C2 amended: for every staged record list the two conversion paths agree
on the workbook's four sheet names and produce identical `marks` and `raw`
sheets (and the standalone path involves no fetch at all); their `results`
and `grades` sheets, however, differ in columns. -/
theorem conversion_shared_sheets_agree (items : List ResultRecord) :
    App.sheet_names = JsonToExcel.sheet_names
    ∧ App.marks_sheet items = JsonToExcel.marks_sheet items
    ∧ App.raw_sheet items = JsonToExcel.raw_sheet items :=
  ⟨rfl, rfl, rfl⟩

/-- When every record has an empty marks list, no long-form marks row
exists. -/
lemma markRowsOf_eq_nil {items : List ResultRecord}
    (h : ∀ r ∈ items, r.marks = []) : markRowsOf items = [] := by
  induction items with
  | nil => rfl
  | cons r l ih =>
    have hr := h r (by simp)
    simp only [markRowsOf, List.flatMap_cons] at *
    rw [hr]
    simpa using ih fun x hx => h x (by simp [hx])

/-- C9: in the main run's final conversion, when every record in the log
has an empty marks list the column-reordering and row-sorting steps are
skipped: the `results` sheet keeps the rows in log append order and the
columns in dataframe insertion order. -/
theorem no_marks_skips_reorder_and_sort (items : List ResultRecord)
    (h : ∀ r ∈ items, r.marks = []) :
    (App.results_sheet items).rows = items.map resultsRowOf
    ∧ (App.results_sheet items).cols = colsOf (items.map resultsRowOf) := by
  have hm : markRowsOf items = [] := markRowsOf_eq_nil h
  unfold App.results_sheet
  simp [hm]

/-- C9 witness: two placeholder records staged in descending hallticket
order stay in that (unsorted) order. -/
theorem no_marks_skips_reorder_and_sort_witness :
    (App.results_sheet [placeholder "2", placeholder "1"]).rows
      = [resultsRowOf (placeholder "2"), resultsRowOf (placeholder "1")] :=
  (no_marks_skips_reorder_and_sort [placeholder "2", placeholder "1"]
    (by decide)).1

/-! ## Row and column lemmas for the report builder -/

/-- An optional dict entry holds no other key. -/
lemma lookup_optCell {k k' : String} (v : Option String) (h : k' ≠ k) :
    (optCell k v).lookup k' = none := by
  have hb : (k' == k) = false := beq_eq_false_iff_ne.mpr h
  cases v <;> simp [optCell, List.lookup, hb]

/-- A flattened record row holds none but the seven flattened keys. -/
lemma lookup_flatten_top (r : ResultRecord) {k : String}
    (h1 : k ≠ "student.hallticket") (h2 : k ≠ "student.gender")
    (h3 : k ≠ "student.name") (h4 : k ≠ "student.father")
    (h5 : k ≠ "student.course") (h6 : k ≠ "result") (h7 : k ≠ "status") :
    (flatten_top r).lookup k = none := by
  have b1 : (k == "student.hallticket") = false := beq_eq_false_iff_ne.mpr h1
  have b6 : (k == "result") = false := beq_eq_false_iff_ne.mpr h6
  simp [flatten_top, List.lookup_append, List.lookup, b1, b6,
        lookup_optCell r.student.gender h2, lookup_optCell r.student.name h3,
        lookup_optCell r.student.father h4, lookup_optCell r.student.course h5,
        lookup_optCell r.status h7]

/-- The flattened results row carries the record's hallticket under the
explicitly added `hallticket` key. -/
lemma lookup_resultsRowOf_ht (r : ResultRecord) :
    (resultsRowOf r).lookup "hallticket" = some (some r.student.hallticket) := by
  have hf := lookup_flatten_top r (k := "hallticket") (by decide) (by decide)
    (by decide) (by decide) (by decide) (by decide) (by decide)
  unfold resultsRowOf
  rw [List.lookup_append, hf]
  rfl

/-- A key resolved on the left side survives a left merge. -/
lemma lookup_mergeRow_of_some {lr : Row} {k : String} {c : Cell} (right : DF)
    (h : lr.lookup k = some c) : (mergeRow right lr).lookup k = some c := by
  unfold mergeRow
  split <;> simp [List.lookup_append, h]

/-- Cell of a row from a resolved lookup. -/
lemma getCell_of_lookup {r : Row} {k : String} {c : Cell}
    (h : r.lookup k = some c) : getCell r k = c := by
  simp [getCell, h]

/-- The hallticket cell survives all three pivot merges. -/
lemma mergedRow_ht_cell (G C S : DF) (r : ResultRecord) :
    getCell (mergeRow S (mergeRow C (mergeRow G (resultsRowOf r)))) "hallticket"
      = some r.student.hallticket :=
  getCell_of_lookup (lookup_mergeRow_of_some S (lookup_mergeRow_of_some C
    (lookup_mergeRow_of_some G (lookup_resultsRowOf_ht r))))

/-- Accumulated columns survive folding further keys in. -/
lemma mem_addRowCols_left {k : String} (r : Row) :
    ∀ acc : List String, k ∈ acc → k ∈ addRowCols acc r := by
  induction r with
  | nil => intro acc h; exact h
  | cons kv r ih =>
    intro acc h
    unfold addRowCols at *
    rw [List.foldl_cons]
    exact ih _ (by split <;> simp [h])

/-- Adding a key to the accumulator puts it there. -/
lemma mem_step (acc : List String) (k : String) :
    k ∈ (if acc.contains k then acc else acc ++ [k]) := by
  by_cases hm : acc.contains k
  · rw [if_pos hm]
    exact List.mem_of_elem_eq_true hm
  · rw [if_neg hm]
    simp

/-- A key of the row enters the accumulated columns. -/
lemma mem_addRowCols_of_key {k : String} {v : Cell} {r : Row}
    (h : (k, v) ∈ r) : ∀ acc : List String, k ∈ addRowCols acc r := by
  induction r with
  | nil => cases h
  | cons kv r ih =>
    intro acc
    unfold addRowCols at *
    rw [List.foldl_cons]
    rcases List.mem_cons.mp h with hk | hk
    · subst hk
      exact mem_addRowCols_left r _ (mem_step acc k)
    · exact ih hk _

/-- Accumulated columns survive folding further rows in. -/
lemma mem_foldl_addRowCols {k : String} (rows : List Row) :
    ∀ acc : List String, k ∈ acc → k ∈ rows.foldl addRowCols acc := by
  induction rows with
  | nil => intro acc h; exact h
  | cons r rows ih =>
    intro acc h
    rw [List.foldl_cons]
    exact ih _ (mem_addRowCols_left r acc h)

/-- A key of a member row enters the fold whatever the accumulator. -/
lemma mem_foldl_addRowCols_of_row {k : String} {v : Cell} {r : Row}
    (hk : (k, v) ∈ r) (rows : List Row) :
    ∀ acc : List String, r ∈ rows → k ∈ rows.foldl addRowCols acc := by
  induction rows with
  | nil => intro acc h; cases h
  | cons r0 rows ih =>
    intro acc hr
    rw [List.foldl_cons]
    rcases List.mem_cons.mp hr with h0 | h0
    · subst h0
      exact mem_foldl_addRowCols rows _ (mem_addRowCols_of_key hk _)
    · exact ih _ h0

/-- A key of any row is a column of the dataframe built from the rows. -/
lemma mem_colsOf {rows : List Row} {k : String} {v : Cell} {r : Row}
    (hr : r ∈ rows) (hk : (k, v) ∈ r) : k ∈ colsOf rows :=
  mem_foldl_addRowCols_of_row hk rows [] hr

/-- Every flattened results row contributes a `hallticket` column. -/
lemma ht_mem_colsOf {items : List ResultRecord} (h : items ≠ []) :
    "hallticket" ∈ colsOf (items.map resultsRowOf) := by
  cases items with
  | nil => exact absurd rfl h
  | cons r items =>
    refine mem_colsOf (v := some r.student.hallticket) (r := resultsRowOf r)
      (by simp) ?_
    simp [resultsRowOf]

/-! ## Sorting lemmas -/

/-- Either branch of the hallticket sort permutes the rows. -/
lemma sortRows_perm (rows : List Row) : (sortRows rows).Perm rows := by
  unfold sortRows
  split <;> exact List.perm_insertionSort _ _

/-- When the whole column converts to `int`, the sorted rows are ascending
on the integer keys. -/
lemma sortRows_sorted_int {rows : List Row} (h : allIntKeys rows = true) :
    (sortRows rows).Pairwise (fun a b => intKeyOfRow a ≤ intKeyOfRow b) := by
  haveI : IsTotal Row (fun a b => intKeyOfRow a ≤ intKeyOfRow b) :=
    ⟨fun a b => le_total _ _⟩
  haveI : IsTrans Row (fun a b => intKeyOfRow a ≤ intKeyOfRow b) :=
    ⟨fun _ _ _ => le_trans⟩
  unfold sortRows
  rw [if_pos h]
  exact List.sorted_insertionSort _ rows

/-- When the conversion fails, the sorted rows are ascending in the
code-point lexicographic string order. -/
lemma sortRows_sorted_str {rows : List Row} (h : allIntKeys rows = false) :
    (sortRows rows).Pairwise
      (fun a b => strLe (strKeyOfRow a) (strKeyOfRow b) = true) := by
  haveI : IsTotal Row (fun a b => strLe (strKeyOfRow a) (strKeyOfRow b) = true) := by
    constructor
    intro a b
    rcases le_total (strKeyOfRow a).data (strKeyOfRow b).data with hle | hle
    · exact Or.inl (by simpa [strLe] using hle)
    · exact Or.inr (by simpa [strLe] using hle)
  haveI : IsTrans Row (fun a b => strLe (strKeyOfRow a) (strKeyOfRow b) = true) := by
    constructor
    intro a b c hab hbc
    simp only [strLe, decide_eq_true_eq] at hab hbc ⊢
    exact le_trans hab hbc
  unfold sortRows
  rw [if_neg (by simp [h])]
  exact List.sorted_insertionSort _ rows

/-- The `astype(int)` success condition, transported from the rows'
hallticket cells to the records. -/
lemma allIntKeys_eq_true_iff {rows : List Row} {items : List ResultRecord}
    (h : rows.map (fun row => getCell row "hallticket")
      = items.map (fun r => some r.student.hallticket)) :
    (allIntKeys rows = true
      ↔ ∀ r ∈ items, (pyInt? r.student.hallticket).isSome) := by
  unfold allIntKeys
  rw [List.all_eq_true]
  constructor
  · intro hall r hr
    have hm : some r.student.hallticket
        ∈ rows.map (fun row => getCell row "hallticket") := by
      rw [h]
      exact List.mem_map_of_mem _ hr
    rcases List.mem_map.mp hm with ⟨row, hrow, hcell⟩
    have := hall row hrow
    rw [hcell] at this
    simpa using this
  · intro hall row hrow
    have hm : getCell row "hallticket"
        ∈ items.map (fun r => some r.student.hallticket) := by
      rw [← h]
      exact List.mem_map_of_mem _ hrow
    rcases List.mem_map.mp hm with ⟨r, hr, hcell⟩
    rw [← hcell]
    simpa using hall r hr

/-- Both implications of the hallticket sort in one step, keyed on the
record list behind the rows. -/
lemma sortRows_cases {items : List ResultRecord} {rows : List Row}
    (hmap : rows.map (fun row => getCell row "hallticket")
      = items.map (fun r => some r.student.hallticket)) :
    ((∀ r ∈ items, (pyInt? r.student.hallticket).isSome) →
      (sortRows rows).Pairwise (fun a b => intKeyOfRow a ≤ intKeyOfRow b))
    ∧ ((¬ ∀ r ∈ items, (pyInt? r.student.hallticket).isSome) →
      (sortRows rows).Pairwise
        (fun a b => strLe (strKeyOfRow a) (strKeyOfRow b) = true)) := by
  constructor
  · intro hint
    exact sortRows_sorted_int ((allIntKeys_eq_true_iff hmap).mpr hint)
  · intro hint
    cases hb : allIntKeys rows with
    | false => exact sortRows_sorted_str hb
    | true => exact absurd ((allIntKeys_eq_true_iff hmap).mp hb) hint

/-! ## Hallticket cells through the two pipelines -/

/-- The app merge rows, one per record in order. -/
lemma App_mergedDF_rows (items : List ResultRecord) :
    (App.mergedDF items).rows
      = items.map (fun r =>
          mergeRow (pivotReset (markRowsOf items) (·.subject) App.subjectCol)
            (mergeRow (pivotReset (markRowsOf items) (·.credits) App.creditsCol)
              (mergeRow (pivotReset (markRowsOf items) (·.grade) App.gradeCol)
                (resultsRowOf r)))) := by
  simp only [App.mergedDF, mergeLeft, List.map_map]
  rfl

/-- The standalone merge rows, one per record in order. -/
lemma J2E_mergedDF_rows (items : List ResultRecord) :
    (JsonToExcel.mergedDF items).rows
      = items.map (fun r =>
          mergeRow (pivotReset (markRowsOf items) (·.subject) (fun c => "subject_" ++ c))
            (mergeRow (pivotReset (markRowsOf items) (·.credits) (fun c => "credits_" ++ c))
              (mergeRow (pivotReset (markRowsOf items) (·.grade) (fun c => c))
                (resultsRowOf r)))) := by
  simp only [JsonToExcel.mergedDF, mergeLeft, List.map_map]
  rfl

/-- Reindexing keeps exactly the listed columns' cells. -/
lemma getCell_reindexRow (cols : List String) (r : Row) (k : String) :
    getCell (App.reindexRow cols r) k
      = if k ∈ cols then getCell r k else none := by
  induction cols with
  | nil => simp [App.reindexRow, getCell, List.lookup]
  | cons c cs ih =>
    unfold App.reindexRow at *
    by_cases hk : k = c
    · subst hk
      simp [getCell, List.map_cons, List.lookup_cons]
    · have hb : (k == c) = false := beq_eq_false_iff_ne.mpr hk
      simp only [List.map_cons, getCell, List.lookup_cons, hb] at ih ⊢
      rw [ih]
      simp [List.mem_cons, hk]

/-- Reindex-with-fill keeps exactly the listed columns, with `NaN` and
missing columns replaced by the empty string. -/
lemma getCell_reindexFillRow (mcols fc : List String) (r : Row) (k : String) :
    getCell (JsonToExcel.reindexFillRow mcols fc r) k
      = if k ∈ fc then
          some ((if mcols.contains k then getCell r k else some "").getD "")
        else none := by
  induction fc with
  | nil => simp [JsonToExcel.reindexFillRow, getCell, List.lookup]
  | cons c cs ih =>
    unfold JsonToExcel.reindexFillRow at *
    by_cases hk : k = c
    · subst hk
      simp [getCell, List.map_cons, List.lookup_cons]
    · have hb : (k == c) = false := beq_eq_false_iff_ne.mpr hk
      simp only [List.map_cons, getCell, List.lookup_cons, hb] at ih ⊢
      rw [ih]
      simp [List.mem_cons, hk]

/-- `hallticket` is a merged-frame column (app path). -/
lemma ht_mem_App_mergedCols {items : List ResultRecord} (h : items ≠ []) :
    "hallticket" ∈ (App.mergedDF items).cols := by
  have hc : (App.mergedDF items).cols
      = colsOf (items.map resultsRowOf)
        ++ nonKeyCols (pivotReset (markRowsOf items) (·.grade) App.gradeCol)
        ++ nonKeyCols (pivotReset (markRowsOf items) (·.credits) App.creditsCol)
        ++ nonKeyCols (pivotReset (markRowsOf items) (·.subject) App.subjectCol) := rfl
  rw [hc]
  exact List.mem_append_left _ (List.mem_append_left _
    (List.mem_append_left _ (ht_mem_colsOf h)))

/-- `hallticket` is a merged-frame column (standalone path). -/
lemma ht_mem_J2E_mergedCols {items : List ResultRecord} (h : items ≠ []) :
    "hallticket" ∈ (JsonToExcel.mergedDF items).cols := by
  have hc : (JsonToExcel.mergedDF items).cols
      = colsOf (items.map resultsRowOf)
        ++ nonKeyCols (pivotReset (markRowsOf items) (·.grade) (fun c => c))
        ++ nonKeyCols (pivotReset (markRowsOf items) (·.credits) (fun c => "credits_" ++ c))
        ++ nonKeyCols (pivotReset (markRowsOf items) (·.subject) (fun c => "subject_" ++ c)) := rfl
  rw [hc]
  exact List.mem_append_left _ (List.mem_append_left _
    (List.mem_append_left _ (ht_mem_colsOf h)))

/-- `hallticket` heads the core preference, so it lands in the app's final
column list. -/
lemma ht_mem_App_finalCols {items : List ResultRecord} (h : items ≠ []) :
    "hallticket" ∈ App.finalCols items := by
  unfold App.finalCols
  apply List.mem_append_left
  apply List.mem_append_left
  exact List.mem_filter.mpr
    ⟨by decide, List.elem_eq_true_of_mem (ht_mem_App_mergedCols h)⟩

/-- `hallticket` heads the core preference, so it lands in the standalone
final column list. -/
lemma ht_mem_J2E_finalCols {items : List ResultRecord} (h : items ≠ []) :
    "hallticket" ∈ JsonToExcel.finalCols items := by
  have hcore : "hallticket" ∈ JsonToExcel.coreCols items :=
    List.mem_filter.mpr
      ⟨by decide, List.elem_eq_true_of_mem (ht_mem_J2E_mergedCols h)⟩
  unfold JsonToExcel.finalCols
  apply List.mem_append_left
  unfold JsonToExcel.withResultCols
  split
  · exact List.mem_append_left _ (List.mem_append_left _ hcore)
  · exact List.mem_append_left _ hcore

/-- The hallticket cells of the app's pre-sort rows are the records'
halltickets in order. -/
lemma App_presort_ht {items : List ResultRecord} (h : items ≠ []) :
    ((App.mergedDF items).rows.map (App.reindexRow (App.finalCols items))).map
        (fun row => getCell row "hallticket")
      = items.map (fun r => some r.student.hallticket) := by
  rw [App_mergedDF_rows, List.map_map, List.map_map]
  refine List.map_eq_map_iff.mpr fun r hr => ?_
  show getCell (App.reindexRow (App.finalCols items) _) "hallticket" = _
  rw [getCell_reindexRow, if_pos (ht_mem_App_finalCols h)]
  exact mergedRow_ht_cell _ _ _ r

/-- The hallticket cells of the standalone pre-sort rows are the records'
halltickets in order. -/
lemma J2E_presort_ht {items : List ResultRecord} (h : items ≠ []) :
    ((JsonToExcel.mergedDF items).rows.map
        (JsonToExcel.reindexFillRow (JsonToExcel.mergedDF items).cols
          (JsonToExcel.finalCols items))).map
        (fun row => getCell row "hallticket")
      = items.map (fun r => some r.student.hallticket) := by
  rw [J2E_mergedDF_rows, List.map_map, List.map_map]
  refine List.map_eq_map_iff.mpr fun r hr => ?_
  show getCell (JsonToExcel.reindexFillRow _ _ _) "hallticket" = _
  rw [getCell_reindexFillRow, if_pos (ht_mem_J2E_finalCols h),
      if_pos (List.elem_eq_true_of_mem (ht_mem_J2E_mergedCols h))]
  rw [mergedRow_ht_cell _ _ _ r]
  rfl

/-- The app `results` rows in the marked case are the sorted reindexed
merge rows. -/
lemma App_results_sheet_rows_of_marks {items : List ResultRecord}
    (hms : markRowsOf items ≠ []) :
    (App.results_sheet items).rows
      = sortRows ((App.mergedDF items).rows.map
          (App.reindexRow (App.finalCols items))) := by
  unfold App.results_sheet
  rw [if_neg (by simp [List.isEmpty_iff, hms])]

/-- The standalone `results` rows are always the sorted
reindexed-and-filled merge rows. -/
lemma J2E_results_sheet_rows (items : List ResultRecord) :
    (JsonToExcel.results_sheet items).rows
      = sortRows ((JsonToExcel.mergedDF items).rows.map
          (JsonToExcel.reindexFillRow (JsonToExcel.mergedDF items).cols
            (JsonToExcel.finalCols items))) := rfl

/-- C5: the `results` rows are sorted ascending by hallticket as an
integer when every hallticket converts, and ascending lexicographically
otherwise — unconditionally in the standalone converter (on the nonempty
inputs its callers supply), and in the main conversion whenever its
sort step runs (some mark exists); in particular halltickets staged as
`["…002", "…001"]` are emitted as `…001` then `…002`. -/
theorem results_rows_sorted_by_hallticket :
    (∀ items : List ResultRecord, items ≠ [] →
      ((∀ r ∈ items, (pyInt? r.student.hallticket).isSome) →
        (JsonToExcel.results_sheet items).rows.Pairwise
          (fun a b => intKeyOfRow a ≤ intKeyOfRow b))
      ∧ ((¬ ∀ r ∈ items, (pyInt? r.student.hallticket).isSome) →
        (JsonToExcel.results_sheet items).rows.Pairwise
          (fun a b => strLe (strKeyOfRow a) (strKeyOfRow b) = true)))
    ∧ (∀ items : List ResultRecord, markRowsOf items ≠ [] →
      ((∀ r ∈ items, (pyInt? r.student.hallticket).isSome) →
        (App.results_sheet items).rows.Pairwise
          (fun a b => intKeyOfRow a ≤ intKeyOfRow b))
      ∧ ((¬ ∀ r ∈ items, (pyInt? r.student.hallticket).isSome) →
        (App.results_sheet items).rows.Pairwise
          (fun a b => strLe (strKeyOfRow a) (strKeyOfRow b) = true)))
    ∧ (JsonToExcel.results_sheet c5demo).rows.map (fun row => getCell row "hallticket")
        = [some "110624861001", some "110624861002"] := by
  refine ⟨?_, ?_, by decide⟩
  · intro items hne
    rw [J2E_results_sheet_rows]
    exact sortRows_cases (J2E_presort_ht hne)
  · intro items hms
    have hne : items ≠ [] := by
      intro hempty
      subst hempty
      exact hms rfl
    rw [App_results_sheet_rows_of_marks hms]
    exact sortRows_cases (App_presort_ht hne)

/-- C5 witness: the theorem applied to the two staged placeholders, whose
halltickets all convert to integers. -/
theorem results_rows_sorted_by_hallticket_witness :
    (JsonToExcel.results_sheet c5demo).rows.Pairwise
      (fun a b => intKeyOfRow a ≤ intKeyOfRow b) :=
  (results_rows_sorted_by_hallticket.1 c5demo (by decide)).1 (by decide)

/-! ## Column-name shape lemmas -/

/-- Strings with different first characters differ. -/
lemma ne_of_head? {a b : String} (h : a.data.head? ≠ b.data.head?) : a ≠ b :=
  fun e => h (by rw [e])

/-- Appending preserves the first character of a nonempty string. -/
lemma head?_append_str (p s : String) {ch : Char} (h : p.data.head? = some ch) :
    (p ++ s).data.head? = some ch := by
  rw [String.data_append]
  cases hp : p.data with
  | nil => rw [hp] at h; cases h
  | cons x xs =>
    rw [hp] at h
    simp only [List.head?_cons, Option.some.injEq] at h
    simp [h]

/-- A grade pivot column starts with `g`. -/
lemma gradeCol_head (c : String) : (App.gradeCol c).data.head? = some 'g' :=
  head?_append_str "grade_" c rfl

/-- A credits pivot column starts with `c`. -/
lemma creditsCol_head (c : String) : (App.creditsCol c).data.head? = some 'c' :=
  head?_append_str "credits_" c rfl

/-- A subject pivot column starts with `s`. -/
lemma subjectCol_head (c : String) : (App.subjectCol c).data.head? = some 's' :=
  head?_append_str "subject_" c rfl

/-- The `grade_` renaming is injective. -/
lemma gradeCol_inj {x y : String} (h : App.gradeCol x = App.gradeCol y) : x = y := by
  unfold App.gradeCol at h
  have hd := congrArg String.data h
  rw [String.data_append, String.data_append] at hd
  exact String.ext (List.append_cancel_left hd)

/-- A grade column is never the merge key. -/
lemma gradeCol_ne_ht (c : String) : App.gradeCol c ≠ "hallticket" :=
  ne_of_head? (by rw [gradeCol_head]; decide)

/-- Grade and credits columns never coincide. -/
lemma gradeCol_ne_creditsCol (a b : String) : App.gradeCol a ≠ App.creditsCol b :=
  ne_of_head? (by rw [gradeCol_head, creditsCol_head]; decide)

/-- Grade and subject columns never coincide. -/
lemma gradeCol_ne_subjectCol (a b : String) : App.gradeCol a ≠ App.subjectCol b :=
  ne_of_head? (by rw [gradeCol_head, subjectCol_head]; decide)

/-- A grade column is not a core column. -/
lemma gradeCol_not_mem_core (c : String) : App.gradeCol c ∉ App.core_pref := by
  intro hmem
  have hh := gradeCol_head c
  simp only [App.core_pref, List.mem_cons, List.not_mem_nil, or_false] at hmem
  rcases hmem with h|h|h|h|h|h|h <;> rw [h] at hh <;> exact absurd hh (by decide)

/-! ## `value_counts` lemmas -/

/-- Membership through the first-appearance dedup fold. -/
lemma mem_foldl_dedup_iff (xs : List String) :
    ∀ (acc : List String) (a : String),
      (a ∈ xs.foldl (fun acc x => if acc.contains x then acc else acc ++ [x]) acc
        ↔ a ∈ acc ∨ a ∈ xs) := by
  induction xs with
  | nil => simp
  | cons x xs ih =>
    intro acc a
    rw [List.foldl_cons, ih]
    by_cases hc : acc.contains x
    · rw [if_pos hc]
      have hx : x ∈ acc := List.mem_of_elem_eq_true hc
      simp only [List.mem_cons]
      constructor
      · rintro (h | h)
        · exact Or.inl h
        · exact Or.inr (Or.inr h)
      · rintro (h | h | h)
        · exact Or.inl h
        · exact Or.inl (h ▸ hx)
        · exact Or.inr h
    · rw [if_neg hc]
      simp [List.mem_append, List.mem_cons, or_assoc]

/-- Dedup keeps exactly the original values. -/
lemma mem_uniqueInOrder_iff {xs : List String} {a : String} :
    a ∈ uniqueInOrder xs ↔ a ∈ xs := by
  unfold uniqueInOrder
  rw [mem_foldl_dedup_iff]
  simp

/-- The dedup fold returns distinct values. -/
lemma nodup_foldl_dedup (xs : List String) :
    ∀ acc : List String, acc.Nodup →
      (xs.foldl (fun acc x => if acc.contains x then acc else acc ++ [x]) acc).Nodup := by
  induction xs with
  | nil => intro acc h; exact h
  | cons x xs ih =>
    intro acc h
    rw [List.foldl_cons]
    apply ih
    by_cases hc : acc.contains x
    · rw [if_pos hc]; exact h
    · rw [if_neg hc]
      have hx : x ∉ acc := fun hm => hc (List.elem_eq_true_of_mem hm)
      simp [List.nodup_append, h, hx]

/-- `uniqueInOrder` is duplicate-free. -/
lemma nodup_uniqueInOrder (xs : List String) : (uniqueInOrder xs).Nodup :=
  nodup_foldl_dedup xs [] List.nodup_nil

/-- `value_counts` permutes the unique values. -/
lemma valueCounts_perm (xs : List String) :
    (valueCounts xs).Perm (uniqueInOrder xs) :=
  List.perm_insertionSort _ _

/-- `value_counts` indexes exactly the occurring values. -/
lemma mem_valueCounts_iff {xs : List String} {a : String} :
    a ∈ valueCounts xs ↔ a ∈ xs := by
  rw [(valueCounts_perm xs).mem_iff, mem_uniqueInOrder_iff]

/-- `value_counts` is sorted by descending count. -/
lemma valueCounts_sorted (xs : List String) :
    (valueCounts xs).Pairwise (fun a b => xs.count b ≤ xs.count a) := by
  haveI : IsTotal String (fun a b => xs.count b ≤ xs.count a) :=
    ⟨fun a b => le_total _ _⟩
  haveI : IsTrans String (fun a b => xs.count b ≤ xs.count a) :=
    ⟨fun _ _ _ h1 h2 => le_trans h2 h1⟩
  exact List.sorted_insertionSort _ _

/-- In `value_counts` order, a strictly more frequent value comes first. -/
lemma indexOf_lt_of_count_gt {xs : List String} {c1 c2 : String}
    (h1 : c1 ∈ valueCounts xs) (h2 : c2 ∈ valueCounts xs)
    (hc : xs.count c2 < xs.count c1) :
    (valueCounts xs).indexOf c1 < (valueCounts xs).indexOf c2 := by
  have hne : c1 ≠ c2 := fun e => absurd hc (by rw [e]; exact lt_irrefl _)
  have hia := List.indexOf_lt_length.mpr h1
  have hib := List.indexOf_lt_length.mpr h2
  rcases lt_trichotomy ((valueCounts xs).indexOf c1) ((valueCounts xs).indexOf c2)
    with h | h | h
  · exact h
  · exfalso
    apply hne
    have e1 := List.getElem_indexOf hia
    have e2 := List.getElem_indexOf hib
    rw [← e1, ← e2]
    simp only [h]
  · exfalso
    have hp := List.pairwise_iff_getElem.mp (valueCounts_sorted xs) _ _ hib hia h
    rw [List.getElem_indexOf hib, List.getElem_indexOf hia] at hp
    exact absurd hp (not_le.mpr hc)

/-- In a per-key block expansion, a key strictly earlier in the key list
puts its block members strictly before any column that only the later key's
block contains. -/
lemma indexOf_flatMap_lt {blk : String → List String} :
    ∀ (xs : List String) {c1 c2 a1 a2 : String},
      c1 ∈ xs → c2 ∈ xs → xs.indexOf c1 < xs.indexOf c2 →
      a1 ∈ blk c1 → (∀ x ∈ xs, a2 ∈ blk x → x = c2) →
      (xs.flatMap blk).indexOf a1 < (xs.flatMap blk).indexOf a2 := by
  intro xs
  induction xs with
  | nil => intro c1 c2 a1 a2 h1 h2; cases h1
  | cons x xs ih =>
    intro c1 c2 a1 a2 h1 h2 hij ha1 hu2
    have hxc2 : x ≠ c2 := by
      intro e
      subst e
      rw [List.indexOf_cons_self] at hij
      exact absurd hij (Nat.not_lt_zero _)
    have ha2x : a2 ∉ blk x := fun hmem => hxc2 (hu2 x (List.mem_cons_self _ _) hmem)
    have hc2xs : c2 ∈ xs := by
      rcases List.mem_cons.mp h2 with e | h
      · exact absurd e.symm hxc2
      · exact h
    rw [List.flatMap_cons]
    by_cases hxc1 : x = c1
    · subst hxc1
      rw [List.indexOf_append_of_mem ha1, List.indexOf_append_of_not_mem ha2x]
      calc (blk x).indexOf a1 < (blk x).length := List.indexOf_lt_length.mpr ha1
      _ ≤ (blk x).length + (xs.flatMap blk).indexOf a2 := Nat.le_add_right _ _
    · have hc1xs : c1 ∈ xs := by
        rcases List.mem_cons.mp h1 with e | h
        · exact absurd e.symm hxc1
        · exact h
      have hij' : xs.indexOf c1 < xs.indexOf c2 := by
        have b1 : (x == c1) = false := beq_eq_false_iff_ne.mpr hxc1
        have b2 : (x == c2) = false := beq_eq_false_iff_ne.mpr hxc2
        rw [List.indexOf_cons, List.indexOf_cons, b1, b2] at hij
        simpa using hij
      have ih' := ih hc1xs hc2xs hij' ha1
        (fun y hy hm => hu2 y (List.mem_cons_of_mem _ hy) hm)
      by_cases hax : a1 ∈ blk x
      · rw [List.indexOf_append_of_mem hax, List.indexOf_append_of_not_mem ha2x]
        calc (blk x).indexOf a1 < (blk x).length := List.indexOf_lt_length.mpr hax
        _ ≤ (blk x).length + (xs.flatMap blk).indexOf a2 := Nat.le_add_right _ _
      · rw [List.indexOf_append_of_not_mem hax, List.indexOf_append_of_not_mem ha2x]
        exact Nat.add_lt_add_left ih' _

/-- Pivot column codes are exactly the occurring codes. -/
lemma mem_pivotCodes_iff {ms : List MarkRow} {c : String} :
    c ∈ pivotCodes ms ↔ c ∈ ms.map (·.code) := by
  unfold pivotCodes sortAsc
  rw [(List.perm_insertionSort _ _).mem_iff, mem_uniqueInOrder_iff]

/-- Every occurring code contributes a `grade_` column to the app's merged
frame. -/
lemma gradeCol_mem_mergedCols {items : List ResultRecord} {c : String}
    (hc : c ∈ (markRowsOf items).map (·.code)) :
    App.gradeCol c ∈ (App.mergedDF items).cols := by
  have hcols : (App.mergedDF items).cols
      = colsOf (items.map resultsRowOf)
        ++ nonKeyCols (pivotReset (markRowsOf items) (·.grade) App.gradeCol)
        ++ nonKeyCols (pivotReset (markRowsOf items) (·.credits) App.creditsCol)
        ++ nonKeyCols (pivotReset (markRowsOf items) (·.subject) App.subjectCol) := rfl
  rw [hcols]
  apply List.mem_append_left
  apply List.mem_append_left
  apply List.mem_append_right
  unfold nonKeyCols pivotReset
  refine List.mem_filter.mpr ⟨?_, ?_⟩
  · exact List.mem_cons_of_mem _
      (List.mem_map_of_mem _ (mem_pivotCodes_iff.mpr hc))
  · simpa using gradeCol_ne_ht c

/-- Every occurring code's `grade_` column lands in the grouped subject
columns. -/
lemma gradeCol_mem_subjGrouped {items : List ResultRecord} {c : String}
    (hc : c ∈ (markRowsOf items).map (·.code)) :
    App.gradeCol c ∈ App.subjGrouped items := by
  unfold App.subjGrouped
  refine List.mem_flatMap.mpr ⟨c, ?_, ?_⟩
  · exact mem_valueCounts_iff.mpr hc
  · exact List.mem_filter.mpr
      ⟨by simp, List.elem_eq_true_of_mem (gradeCol_mem_mergedCols hc)⟩

/-- An occurring code's `grade_` column sits in the grouped block, offset
by the core columns. -/
lemma finalCols_indexOf_gradeCol {items : List ResultRecord} {c : String}
    (hc : c ∈ (markRowsOf items).map (·.code)) :
    (App.finalCols items).indexOf (App.gradeCol c)
      = (App.coreCols items).length
        + (App.subjGrouped items).indexOf (App.gradeCol c) := by
  have hmem_subj : App.gradeCol c ∈ App.subjectCols items :=
    List.mem_append_left _ (gradeCol_mem_subjGrouped hc)
  have hnotcore : App.gradeCol c ∉ App.coreCols items :=
    fun h => gradeCol_not_mem_core c (List.mem_filter.mp h).1
  unfold App.finalCols
  rw [List.indexOf_append_of_mem (List.mem_append_right _ hmem_subj),
      List.indexOf_append_of_not_mem hnotcore]
  have hsubj : App.subjectCols items
      = App.subjGrouped items ++ sortAsc (App.remainingPivots items) := rfl
  rw [hsubj, List.indexOf_append_of_mem (gradeCol_mem_subjGrouped hc)]

/-- The frequency-ordering core of C4. -/
lemma grade_indexOf_lt {items : List ResultRecord} {c1 c2 : String}
    (h1 : c1 ∈ (markRowsOf items).map (·.code))
    (h2 : c2 ∈ (markRowsOf items).map (·.code))
    (hc : ((markRowsOf items).map (·.code)).count c2
      < ((markRowsOf items).map (·.code)).count c1) :
    (App.finalCols items).indexOf (App.gradeCol c1)
      < (App.finalCols items).indexOf (App.gradeCol c2) := by
  rw [finalCols_indexOf_gradeCol h1, finalCols_indexOf_gradeCol h2]
  apply Nat.add_lt_add_left
  unfold App.subjGrouped
  apply indexOf_flatMap_lt (App.codesSorted items)
  · exact mem_valueCounts_iff.mpr h1
  · exact mem_valueCounts_iff.mpr h2
  · exact indexOf_lt_of_count_gt (mem_valueCounts_iff.mpr h1)
      (mem_valueCounts_iff.mpr h2) hc
  · exact List.mem_filter.mpr
      ⟨by simp, List.elem_eq_true_of_mem (gradeCol_mem_mergedCols h1)⟩
  · intro x hx hmem
    have hl := (List.mem_filter.mp hmem).1
    simp only [List.mem_cons, List.not_mem_nil, or_false] at hl
    rcases hl with h | h | h
    · exact (gradeCol_inj h).symm
    · exact absurd h (gradeCol_ne_creditsCol c2 x)
    · exact absurd h (gradeCol_ne_subjectCol c2 x)

/-- C4: in the main run's `results` sheet the core columns come first, then
per subject code in descending frequency of occurrence the three pivot
columns grouped (a strictly more frequent code's columns strictly precede a
less frequent one's — in particular `grade_MATH101` before `grade_PHYS201`
at 5 versus 2 occurrences), then leftover pivot columns sorted, then the
remaining columns; the concrete layout is checked in full. -/
theorem results_columns_frequency_order :
    (∀ (items : List ResultRecord) (c1 c2 : String),
      c1 ∈ (markRowsOf items).map (·.code) →
      c2 ∈ (markRowsOf items).map (·.code) →
      ((markRowsOf items).map (·.code)).count c2
        < ((markRowsOf items).map (·.code)).count c1 →
      (App.finalCols items).indexOf (App.gradeCol c1)
        < (App.finalCols items).indexOf (App.gradeCol c2))
    ∧ (App.results_sheet c4demo).cols
        = ["hallticket", "student.name", "student.father", "student.gender",
           "student.course", "result",
           "grade_MATH101", "credits_MATH101", "subject_MATH101",
           "grade_PHYS201", "credits_PHYS201", "subject_PHYS201",
           "student.hallticket"] :=
  ⟨fun _ _ _ h1 h2 hc => grade_indexOf_lt h1 h2 hc, by decide⟩

/-- C4 witness: the theorem applied to the five staged records with
MATH101 five times and PHYS201 twice. -/
theorem results_columns_frequency_order_witness :
    (App.finalCols c4demo).indexOf (App.gradeCol "MATH101")
      < (App.finalCols c4demo).indexOf (App.gradeCol "PHYS201") :=
  results_columns_frequency_order.1 c4demo "MATH101" "PHYS201"
    (by decide) (by decide) (by decide)

/-! ## Zero-marks left-join lemmas -/

/-- Strings with different first two characters differ. -/
lemma ne_of_take2 {a b : String} (h : a.data.take 2 ≠ b.data.take 2) : a ≠ b :=
  fun e => h (by rw [e])

/-- Appending keeps the first two characters of a long-enough string. -/
lemma take2_append_str (p s : String) (h : 2 ≤ p.data.length) :
    (p ++ s).data.take 2 = p.data.take 2 := by
  rw [String.data_append, List.take_append_of_le_length h]

/-- First two characters of a `grade_` column. -/
lemma gradeCol_take2 (c : String) : (App.gradeCol c).data.take 2 = ['g', 'r'] := by
  unfold App.gradeCol
  rw [take2_append_str "grade_" c (by decide)]
  decide

/-- First two characters of a `credits_` column. -/
lemma creditsCol_take2 (c : String) : (App.creditsCol c).data.take 2 = ['c', 'r'] := by
  unfold App.creditsCol
  rw [take2_append_str "credits_" c (by decide)]
  decide

/-- First two characters of a `subject_` column. -/
lemma subjectCol_take2 (c : String) : (App.subjectCol c).data.take 2 = ['s', 'u'] := by
  unfold App.subjectCol
  rw [take2_append_str "subject_" c (by decide)]
  decide

/-- No pivot column collides with a flattened-record key, so a flattened
results row never resolves a pivot column. -/
lemma lookup_resultsRowOf_pivot_none (r : ResultRecord) {k : String}
    (hk : k.data.take 2 = ['g', 'r'] ∨ k.data.take 2 = ['c', 'r']
      ∨ k.data.take 2 = ['s', 'u']) :
    (resultsRowOf r).lookup k = none := by
  have hne : ∀ t : String, t.data.take 2 ≠ ['g', 'r'] → t.data.take 2 ≠ ['c', 'r'] →
      t.data.take 2 ≠ ['s', 'u'] → k ≠ t := by
    intro t h1 h2 h3
    rcases hk with h | h | h
    · exact ne_of_take2 (by rw [h]; exact fun e => h1 e.symm)
    · exact ne_of_take2 (by rw [h]; exact fun e => h2 e.symm)
    · exact ne_of_take2 (by rw [h]; exact fun e => h3 e.symm)
  have hf := lookup_flatten_top r
    (hne "student.hallticket" (by decide) (by decide) (by decide))
    (hne "student.gender" (by decide) (by decide) (by decide))
    (hne "student.name" (by decide) (by decide) (by decide))
    (hne "student.father" (by decide) (by decide) (by decide))
    (hne "student.course" (by decide) (by decide) (by decide))
    (hne "result" (by decide) (by decide) (by decide))
    (hne "status" (by decide) (by decide) (by decide))
  have hht : k ≠ "hallticket" := hne "hallticket" (by decide) (by decide) (by decide)
  have hb : (k == "hallticket") = false := beq_eq_false_iff_ne.mpr hht
  unfold resultsRowOf
  rw [List.lookup_append, hf]
  simp [List.lookup, hb]

/-- Looking up in an all-`NaN` merge extension yields a present-but-null
cell or nothing. -/
lemma lookup_const_none (xs : List String) (k : String) :
    (xs.map fun c => (c, (none : Cell))).lookup k
      = if k ∈ xs then some none else none := by
  induction xs with
  | nil => simp [List.lookup]
  | cons c cs ih =>
    by_cases hk : k = c
    · subst hk
      simp [List.lookup_cons]
    · have hb : (k == c) = false := beq_eq_false_iff_ne.mpr hk
      simp only [List.map_cons, List.lookup_cons, hb]
      rw [ih]
      simp [List.mem_cons, hk]

/-- The pivot rows index exactly the halltickets occurring in the marks. -/
lemma mem_pivotIndex_iff {ms : List MarkRow} {h : String} :
    h ∈ pivotIndex ms ↔ h ∈ ms.map (·.hallticket) := by
  unfold pivotIndex sortAsc
  rw [(List.perm_insertionSort _ _).mem_iff, mem_uniqueInOrder_iff]

/-- A hallticket with no marks matches no pivot row. -/
lemma find?_pivot_none {ms : List MarkRow} {h0 : String}
    (f : MarkRow → String) (rn : String → String)
    (hnotin : h0 ∉ ms.map (·.hallticket)) {lr : Row}
    (hlr : getCell lr "hallticket" = some h0) :
    (pivotReset ms f rn).rows.find?
      (fun rr => getCell rr "hallticket" == getCell lr "hallticket") = none := by
  rw [List.find?_eq_none]
  intro rr hrr
  have hrows : (pivotReset ms f rn).rows
      = (pivotIndex ms).map fun h =>
          ("hallticket", some h) :: (pivotCodes ms).map fun c =>
            (rn c, pivotCell ms f h c) := rfl
  rw [hrows] at hrr
  rcases List.mem_map.mp hrr with ⟨h, hh, hrow⟩
  have hcell : getCell rr "hallticket" = some h := by
    rw [← hrow]
    simp [getCell, List.lookup_cons]
  have hne : h ≠ h0 := fun e => hnotin (e ▸ mem_pivotIndex_iff.mp hh)
  rw [hlr, hcell]
  simp [hne]

/-- A missed left merge appends one null cell per non-key column. -/
lemma mergeRow_none {right : DF} {lr : Row}
    (hfind : right.rows.find?
      (fun rr => getCell rr "hallticket" == getCell lr "hallticket") = none) :
    mergeRow right lr = lr ++ (nonKeyCols right).map fun c => (c, (none : Cell)) := by
  unfold mergeRow
  rw [hfind]

/-- The zero-marks record's hallticket never appears among the long-form
marks rows. -/
lemma ht_not_in_marks {items : List ResultRecord} {r0 : ResultRecord}
    (hmem : r0 ∈ items) (hzero : r0.marks = [])
    (hnd : (items.map (fun r => r.student.hallticket)).Nodup) :
    r0.student.hallticket ∉ (markRowsOf items).map (·.hallticket) := by
  intro hin
  rcases List.mem_map.mp hin with ⟨mr, hmr, hht⟩
  rcases List.mem_flatMap.mp hmr with ⟨r, hr, hmr2⟩
  rcases List.mem_map.mp hmr2 with ⟨m, hm, hmr3⟩
  have hrht : r.student.hallticket = r0.student.hallticket := by
    rw [← hht, ← hmr3]
  have hr0 : r = r0 := List.inj_on_of_nodup_map hnd hr hmem hrht
  rw [hr0, hzero] at hm
  cases hm

/-- All pivot cells of a merged row are null when the record's hallticket
occurs in no marks row. -/
lemma merged_pivot_cells_none {items : List ResultRecord} {r : ResultRecord}
    (hnot : r.student.hallticket ∉ (markRowsOf items).map (·.hallticket))
    {k : String}
    (hk : k.data.take 2 = ['g', 'r'] ∨ k.data.take 2 = ['c', 'r']
      ∨ k.data.take 2 = ['s', 'u']) :
    getCell (mergeRow (pivotReset (markRowsOf items) (·.subject) App.subjectCol)
      (mergeRow (pivotReset (markRowsOf items) (·.credits) App.creditsCol)
        (mergeRow (pivotReset (markRowsOf items) (·.grade) App.gradeCol)
          (resultsRowOf r)))) k = none := by
  have l0 := lookup_resultsRowOf_ht r
  have l1 := lookup_mergeRow_of_some
    (pivotReset (markRowsOf items) (·.grade) App.gradeCol) l0
  have l2 := lookup_mergeRow_of_some
    (pivotReset (markRowsOf items) (·.credits) App.creditsCol) l1
  have hf1 := find?_pivot_none (·.grade) App.gradeCol hnot (getCell_of_lookup l0)
  have hf2 := find?_pivot_none (·.credits) App.creditsCol hnot (getCell_of_lookup l1)
  have hf3 := find?_pivot_none (·.subject) App.subjectCol hnot (getCell_of_lookup l2)
  rw [mergeRow_none hf3, mergeRow_none hf2, mergeRow_none hf1]
  unfold getCell
  rw [List.lookup_append, List.lookup_append, List.lookup_append,
      lookup_resultsRowOf_pivot_none r hk, lookup_const_none, lookup_const_none,
      lookup_const_none]
  simp only [Option.none_or]
  split_ifs <;> rfl

/-- The pre-sort app rows carry one row per record, matched on hallticket
cells. -/
lemma presort_countP (items : List ResultRecord) (hne : items ≠ [])
    (h0 : String) :
    ((App.mergedDF items).rows.map (App.reindexRow (App.finalCols items))).countP
        (fun row => getCell row "hallticket" == some h0)
      = (items.map (fun r => r.student.hallticket)).count h0 := by
  rw [App_mergedDF_rows, List.map_map, List.countP_map, List.count,
      List.countP_map]
  apply List.countP_congr
  intro r hr
  show (getCell (App.reindexRow _ _) "hallticket" == some h0) = true
    ↔ (r.student.hallticket == h0) = true
  rw [getCell_reindexRow, if_pos (ht_mem_App_finalCols hne),
      mergedRow_ht_cell _ _ _ r]
  simp

/-- C8: the pivot merge is a left join on hallticket — a record with no
marks (its hallticket unique in the log, some other record carrying marks)
still yields exactly one `results` row for its hallticket, and in every
such row all pivot cells are empty. -/
theorem zero_marks_left_join (items : List ResultRecord) (r0 : ResultRecord)
    (hmem : r0 ∈ items) (hzero : r0.marks = [])
    (hms : markRowsOf items ≠ [])
    (hnd : (items.map (fun r => r.student.hallticket)).Nodup) :
    (App.results_sheet items).rows.countP
        (fun row => getCell row "hallticket" == some r0.student.hallticket) = 1
    ∧ ∀ row ∈ (App.results_sheet items).rows,
        getCell row "hallticket" = some r0.student.hallticket →
        ∀ c ∈ (markRowsOf items).map (·.code),
          getCell row (App.gradeCol c) = none
          ∧ getCell row (App.creditsCol c) = none
          ∧ getCell row (App.subjectCol c) = none := by
  have hne : items ≠ [] := by
    intro hempty
    subst hempty
    exact hms rfl
  have hnot := ht_not_in_marks hmem hzero hnd
  have hperm := sortRows_perm
    ((App.mergedDF items).rows.map (App.reindexRow (App.finalCols items)))
  constructor
  · rw [App_results_sheet_rows_of_marks hms, hperm.countP_eq,
        presort_countP items hne]
    exact List.count_eq_one_of_mem hnd (List.mem_map_of_mem _ hmem)
  · intro row hrow hcell c hc
    rw [App_results_sheet_rows_of_marks hms] at hrow
    have hrow' := hperm.mem_iff.mp hrow
    rcases List.mem_map.mp hrow' with ⟨mrow, hmrow, hre⟩
    rw [App_mergedDF_rows] at hmrow
    rcases List.mem_map.mp hmrow with ⟨r, hr, hbig⟩
    have hcellm : getCell mrow "hallticket" = some r.student.hallticket := by
      rw [← hbig]
      exact mergedRow_ht_cell _ _ _ r
    have hrh : r.student.hallticket = r0.student.hallticket := by
      rw [← hre, getCell_reindexRow, if_pos (ht_mem_App_finalCols hne),
          hcellm] at hcell
      exact Option.some.inj hcell
    have hnotr : r.student.hallticket ∉ (markRowsOf items).map (·.hallticket) :=
      hrh ▸ hnot
    refine ⟨?_, ?_, ?_⟩
    · rw [← hre, getCell_reindexRow]
      by_cases hfc : App.gradeCol c ∈ App.finalCols items
      · rw [if_pos hfc, ← hbig]
        exact merged_pivot_cells_none hnotr (Or.inl (gradeCol_take2 c))
      · rw [if_neg hfc]
    · rw [← hre, getCell_reindexRow]
      by_cases hfc : App.creditsCol c ∈ App.finalCols items
      · rw [if_pos hfc, ← hbig]
        exact merged_pivot_cells_none hnotr (Or.inr (Or.inl (creditsCol_take2 c)))
      · rw [if_neg hfc]
    · rw [← hre, getCell_reindexRow]
      by_cases hfc : App.subjectCol c ∈ App.finalCols items
      · rw [if_pos hfc, ← hbig]
        exact merged_pivot_cells_none hnotr (Or.inr (Or.inr (subjectCol_take2 c)))
      · rw [if_neg hfc]

/-- C8 witness: the theorem applied to one marked record plus one
zero-marks placeholder. -/
theorem zero_marks_left_join_witness :
    (App.results_sheet c8demo).rows.countP
        (fun row => getCell row "hallticket" == some "110624861001") = 1 :=
  (zero_marks_left_join c8demo (placeholder "110624861001")
    (by decide) rfl (by decide) (by decide)).1
